import Mathlib

/-!
# The `ba` command-line tool (`cmd/ba/main.go`)

A shallow embedding of `makeapp` and `commandFailWith`.

* The command table of `makeapp` is data (`Command`, `Flag`).
* Every call that leaves `main.go` (the `build`, `generate`, `train` and `map`
  subcommand packages, `cli.ShowCommandHelp`, `utils.FailWith`, `fmt`) is
  recorded as an `Event`; an Action is a function from the collaborators'
  answers (`Env`) and a `cli.Context` to the list of events it performs and
  the error it returns.  Calls are taken to come back to the caller.
* The part of `urfave/cli` that `main.go` relies on (default values of flags,
  `Set`, the typed look-ups `c.Int`, `c.String`, `c.StringSlice`, `c.Bool`,
  `c.Args().Get`) is modelled in `Cli`.
-/

set_option autoImplicit false

namespace Ba

/-! ## Errors -/

/-- A Go `error` value, as handed back by the subcommand packages. -/
structure GoError where
  msg : String
deriving DecidableEq, Repr

/-- The `bettererrors.Chain` built by `New(..).SetContext(..).With(..)`. -/
structure Chain where
  message : String
  context : List (String × String)
  errors : List GoError
deriving DecidableEq, Repr

namespace bettererrors

/-- Builds `bettererrors.New(msg)`. -/
def New (msg : String) : Chain :=
  { message := msg, context := [], errors := [] }

/-- Stores `key = value` in the context map of the chain. -/
def SetContext (c : Chain) (key value : String) : Chain :=
  { c with context := (c.context.filter (fun kv => kv.1 != key)) ++ [(key, value)] }

/-- Attaches `err` to the chain. -/
def With (c : Chain) (err : GoError) : Chain :=
  { c with errors := c.errors ++ [err] }

end bettererrors

/-! ## The slice of `urfave/cli` used by `main.go` -/

namespace Cli

/-- A flag declaration, one constructor per flag type used in `makeapp`. -/
inductive Flag where
  | IntFlag (Name : String) (Value : Int)
  | StringFlag (Name : String) (Value : String)
  | StringSliceFlag (Name : String)
  | BoolFlag (Name : String)
deriving DecidableEq, Repr

/-- The current value of a flag inside a flag set. -/
inductive FlagValue where
  | int (i : Int)
  | string (s : String)
  | stringSlice (l : List String)
  | bool (b : Bool)
deriving DecidableEq, Repr

/-- A value given on the command line, already read at the type of its flag. -/
inductive Given where
  | int (i : Int)
  | string (s : String)
  | bool (b : Bool)
deriving DecidableEq, Repr

/-- The name of a flag. -/
def Flag.Name : Flag → String
  | .IntFlag n _ => n
  | .StringFlag n _ => n
  | .StringSliceFlag n => n
  | .BoolFlag n => n

/-- The entry a flag declaration puts in the flag set: its default value. -/
def Flag.Apply : Flag → String × FlagValue
  | .IntFlag n v => (n, .int v)
  | .StringFlag n v => (n, .string v)
  | .StringSliceFlag n => (n, .stringSlice [])
  | .BoolFlag n => (n, .bool false)

/-- The effect of one command-line occurrence on the value of a flag: scalars
are replaced, a string slice grows, a value of the wrong kind is a parse
error. -/
def FlagValue.Set : FlagValue → Given → Option FlagValue
  | .int _, .int i => some (.int i)
  | .string _, .string s => some (.string s)
  | .stringSlice l, .string s => some (.stringSlice (l ++ [s]))
  | .bool _, .bool b => some (.bool b)
  | _, _ => none

/-- A flag set: the declared flags with their current values. -/
abbrev FlagSet := List (String × FlagValue)

/-- Sets the flag `name` from a command-line occurrence; an undeclared flag is
a parse error. -/
def FlagSet.Set : FlagSet → String → Given → Option FlagSet
  | [], _, _ => none
  | (n, v) :: rest, name, g =>
    if n = name then (v.Set g).map (fun w => (n, w) :: rest)
    else (FlagSet.Set rest name g).map (fun r => (n, v) :: r)

/-- Reads the command-line occurrences from left to right. -/
def FlagSet.Parse : FlagSet → List (String × Given) → Option FlagSet
  | fs, [] => some fs
  | fs, (name, g) :: more =>
    match FlagSet.Set fs name g with
    | none => none
    | some fs1 => FlagSet.Parse fs1 more

/-- The value stored for `name`, if the flag is declared. -/
def FlagSet.lookup : FlagSet → String → Option FlagValue
  | [], _ => none
  | (n, v) :: rest, name => if n = name then some v else FlagSet.lookup rest name

/-- A `cli.Context`: the flag set of the command and the positional
arguments. -/
structure Context where
  flagSet : FlagSet
  args : List String
deriving DecidableEq, Repr

/-- The method `c.Int(name)` (the library's `lookupInt`): 0 when there is no such int flag. -/
def Context.lookupInt (c : Context) (name : String) : Int :=
  match c.flagSet.lookup name with
  | some (.int i) => i
  | _ => 0

/-- The method `c.String(name)` (the library's `lookupString`): the empty string when there is no such flag. -/
def Context.lookupString (c : Context) (name : String) : String :=
  match c.flagSet.lookup name with
  | some (.string s) => s
  | _ => ""

/-- The method `c.StringSlice(name)` (the library's `lookupStringSlice`): empty when there is no such flag. -/
def Context.lookupStringSlice (c : Context) (name : String) : List String :=
  match c.flagSet.lookup name with
  | some (.stringSlice l) => l
  | _ => []

/-- The method `c.Bool(name)` (the library's `lookupBool`): false when there is no such flag. -/
def Context.lookupBool (c : Context) (name : String) : Bool :=
  match c.flagSet.lookup name with
  | some (.bool b) => b
  | _ => false

/-- Evaluates `c.Args().Get(n)`: the empty string when out of range. -/
def Context.ArgsGet (c : Context) (n : Nat) : String :=
  c.args.getD n ""

/-- The context a command runs in: its flags at their defaults, then the
command line. `none` is a parse error, for which no Action runs. -/
def NewContext (flags : List Flag) (given : List (String × Given)) (args : List String) :
    Option Context :=
  (FlagSet.Parse (flags.map Flag.Apply) given).map (fun fs => { flagSet := fs, args := args })

end Cli

open Cli

/-! ## Calls leaving `main.go` -/

/-- The thirteen arguments of `train.TrainAction`, in parameter order. -/
structure TrainArgs where
  tps : Int
  host : String
  port : Int
  vizhost : String
  nobrowser : Bool
  recordFile : String
  agents : List String
  isDebug : Bool
  isQuiet : Bool
  mapName : String
  shouldProfile : Bool
  dumpRaw : Bool
  duration : Int
deriving DecidableEq, Repr

/-- The two function literals bound to `debug` in the map update Action. -/
inductive DebugFn where
  /-- The literal `func(str string) {}`. -/
  | noop
  /-- The literal `func(str string) { fmt.Println(str) }`. -/
  | println
deriving DecidableEq, Repr

/-- One call leaving `main.go`. -/
inductive Event where
  | buildBashComplete (arg : String)
  | buildMain (arg : String)
  | generateBashComplete
  | generateMain (arg : String)
  | TrainAction (a : TrainArgs)
  | MapUpdateAction (debug : DebugFn)
  | MapListAction
  | ShowCommandHelp (c : Context) (name : String)
  | FailWith (berror : Chain)
  | Fprintln (s : String)
  | Println (s : String)
deriving DecidableEq, Repr

/-- What a call of the `debug` callback with `str` does. -/
def DebugFn.call : DebugFn → String → List Event
  | .noop, _ => []
  | .println, str => [Event.Println str]

/-- The answers of the subcommand packages. -/
structure Env where
  buildBashComplete : String → String × Option GoError
  buildMain : String → Bool × Option GoError
  generateBashComplete : String × Option GoError
  generateMain : String → Bool × Option GoError
  TrainAction : TrainArgs → Bool × Option GoError

/-! ## `commandFailWith` and the Actions of `makeapp` -/

/-- The function `commandFailWith(name, showUsage, c, err)`. -/
def commandFailWith (name : String) (showUsage : Bool) (c : Context) (err : GoError) :
    List Event :=
  let berror :=
    bettererrors.With
      (bettererrors.SetContext (bettererrors.New "Failed to execute command") "command" name) err
  (if showUsage then [Event.ShowCommandHelp c name] else []) ++ [Event.FailWith berror]

/-- The `BashComplete` closure of the build command. -/
def buildBashComplete (env : Env) (c : Context) : List Event :=
  let arg := c.ArgsGet 0
  let r := env.buildBashComplete arg
  let completion := r.1
  let err := r.2
  [Event.buildBashComplete arg]
    ++ (match err with
        | some e => commandFailWith "build" false c e
        | none => [])
    ++ [Event.Fprintln completion]

/-- The `Action` closure of the build command. -/
def buildAction (env : Env) (c : Context) : List Event × Option GoError :=
  let arg := c.ArgsGet 0
  let r := env.buildMain arg
  let showUsage := r.1
  let err := r.2
  ([Event.buildMain arg]
    ++ (match err with
        | some e => commandFailWith "build" showUsage c e
        | none => []),
   none)

/-- The `BashComplete` closure of the generate command. -/
def generateBashComplete (env : Env) (c : Context) : List Event :=
  let r := env.generateBashComplete
  let completion := r.1
  let err := r.2
  [Event.generateBashComplete]
    ++ (match err with
        | some e => commandFailWith "generate" false c e
        | none => [])
    ++ [Event.Fprintln completion]

/-- The `Action` closure of the generate command. -/
def generateAction (env : Env) (c : Context) : List Event × Option GoError :=
  let arg := c.ArgsGet 0
  let r := env.generateMain arg
  let showUsage := r.1
  let err := r.2
  ([Event.generateMain arg]
    ++ (match err with
        | some e => commandFailWith "generate" showUsage c e
        | none => []),
   none)

/-- The arguments the train Action reads from its context. -/
def trainArgs (c : Context) : TrainArgs :=
  let tps := c.lookupInt "tps"
  let host := c.lookupString "host"
  let agents := c.lookupStringSlice "agent"
  let port := c.lookupInt "port"
  let vizhost := c.lookupString "viz-host"
  let recordFile := c.lookupString "record-file"
  let mapName := c.lookupString "map"
  let nobrowser := c.lookupBool "no-browser"
  let isDebug := c.lookupBool "debug"
  let isQuiet := c.lookupBool "quiet"
  let shouldProfile := c.lookupBool "profile"
  let dumpRaw := c.lookupBool "dump-raw-comm"
  let duration := c.lookupInt "duration"
  { tps := tps, host := host, port := port, vizhost := vizhost, nobrowser := nobrowser,
    recordFile := recordFile, agents := agents, isDebug := isDebug, isQuiet := isQuiet,
    mapName := mapName, shouldProfile := shouldProfile, dumpRaw := dumpRaw,
    duration := duration }

/-- The `Action` closure of the train command. -/
def trainAction (env : Env) (c : Context) : List Event × Option GoError :=
  let a := trainArgs c
  let r := env.TrainAction a
  let showUsage := r.1
  let err := r.2
  ([Event.TrainAction a]
    ++ (match err with
        | some e => commandFailWith "train" showUsage c e
        | none => []),
   none)

/-- The `Action` closure of `map update`. -/
def mapUpdateAction (_env : Env) (c : Context) : List Event × Option GoError :=
  let isDebug := c.lookupBool "debug"
  let debug := if isDebug then DebugFn.println else DebugFn.noop
  ([Event.MapUpdateAction debug], none)

/-- The `Action` closure of `map list`. -/
def mapListAction (_env : Env) (_c : Context) : List Event × Option GoError :=
  ([Event.MapListAction], none)

/-! ## The command table -/

/-- A `cli.Command`. -/
inductive Command where
  | mk (Name : String) (Aliases : List String) (Usage : String) (Flags : List Flag)
      (BashComplete : Option (Env → Context → List Event))
      (Action : Option (Env → Context → List Event × Option GoError))
      (Subcommands : List Command)

namespace Command

/-- Field `Name`. -/
def Name : Command → String
  | mk n _ _ _ _ _ _ => n

/-- Field `Aliases`. -/
def Aliases : Command → List String
  | mk _ a _ _ _ _ _ => a

/-- Field `Flags`. -/
def Flags : Command → List Flag
  | mk _ _ _ f _ _ _ => f

/-- Field `BashComplete`. -/
def BashComplete : Command → Option (Env → Context → List Event)
  | mk _ _ _ _ b _ _ => b

/-- Field `Action`. -/
def Action : Command → Option (Env → Context → List Event × Option GoError)
  | mk _ _ _ _ _ a _ => a

/-- Field `Subcommands`. -/
def Subcommands : Command → List Command
  | mk _ _ _ _ _ _ s => s

/-- The name followed by the aliases, as `Command.Names()`. -/
def Names (c : Command) : List String :=
  c.Name :: c.Aliases

/-- Whether the command answers to `name`, as `Command.HasName`. -/
def HasName (c : Command) (name : String) : Bool :=
  c.Names.contains name

end Command

/-- The flags of the train command. -/
def trainFlags : List Flag :=
  [ .IntFlag "tps" 20,
    .StringFlag "host" "",
    .StringSliceFlag "agent",
    .IntFlag "port" 8080,
    .StringFlag "viz-host" "127.0.0.1",
    .StringFlag "record-file" "",
    .StringFlag "map" "hexagon",
    .BoolFlag "no-browser",
    .BoolFlag "debug",
    .BoolFlag "quiet",
    .BoolFlag "profile",
    .BoolFlag "dump-raw-comm",
    .IntFlag "duration" 0 ]

/-- The `app.Commands` slice built by `makeapp`. -/
def makeapp : List Command :=
  [ .mk "build" [] "Build an agent" [] (some buildBashComplete) (some buildAction) [],
    .mk "generate" ["gen"] "Generate a boilerplate agent" []
      (some generateBashComplete) (some generateAction) [],
    .mk "train" ["t"] "Train your agent" trainFlags none (some trainAction) [],
    .mk "map" [] "Operations on map packs" [.BoolFlag "debug"] none none
      [ .mk "update" [] "Fetch the trainer maps if needed" [] none (some mapUpdateAction) [],
        .mk "list" [] "List the trainer maps locally available" [] none
          (some mapListAction) [] ] ]

/-- The first command of the list answering to `name`, as `App.Command`. -/
def findCommand (cmds : List Command) (name : String) : Option Command :=
  cmds.find? (fun c => c.HasName name)

/-- Runs the Action of the top-level command `name` on a command line: `none`
when there is no such command, it has no Action, or the flags do not parse. -/
def invoke (env : Env) (cmds : List Command) (name : String)
    (given : List (String × Given)) (args : List String) :
    Option (List Event × Option GoError) :=
  match findCommand cmds name with
  | none => none
  | some cmd =>
    match cmd.Action, NewContext cmd.Flags given args with
    | some act, some c => some (act env c)
    | _, _ => none

/-- Runs the Action of the subcommand `sub` of the top-level command `name`,
as for `ba name <given> sub <subGiven> <args>`. The flags of `name` are read
into the context of `name`; the subcommand runs in a context of its own, whose
flag set holds the flags the subcommand itself declares, and the look-ups
`c.Int`, `c.String`, `c.StringSlice`, `c.Bool` read that flag set only.
`none` when a command is not found, has no Action, or flags do not parse. -/
def invokeSub (env : Env) (cmds : List Command) (name : String)
    (given : List (String × Given)) (sub : String) (subGiven : List (String × Given))
    (args : List String) : Option (List Event × Option GoError) :=
  match findCommand cmds name with
  | none => none
  | some cmd =>
    match NewContext cmd.Flags given (sub :: args) with
    | none => none
    | some _ =>
      match findCommand cmd.Subcommands sub with
      | none => none
      | some sc =>
        match sc.Action, NewContext sc.Flags subGiven args with
        | some act, some c => some (act env c)
        | _, _ => none

/-- The `TrainAction` calls of a trace, in order. -/
def trainCalls : List Event → List TrainArgs
  | [] => []
  | .TrainAction a :: rest => a :: trainCalls rest
  | _ :: rest => trainCalls rest

/-- The errors handed to `utils.FailWith` in a trace, in order. -/
def failCalls : List Event → List Chain
  | [] => []
  | .FailWith b :: rest => b :: failCalls rest
  | _ :: rest => failCalls rest

/-- The command names for which help is shown in a trace, in order. -/
def helpCalls : List Event → List String
  | [] => []
  | .ShowCommandHelp _ n :: rest => n :: helpCalls rest
  | _ :: rest => helpCalls rest

/-- The callbacks handed to `mapcmd.MapUpdateAction` in a trace, in order. -/
def mapUpdateCalls : List Event → List DebugFn
  | [] => []
  | .MapUpdateAction d :: rest => d :: mapUpdateCalls rest
  | _ :: rest => mapUpdateCalls rest

/-- A value for each of the thirteen train flags, in the order of their
declaration; `agent` holds the occurrences of the repeatable flag. -/
structure TrainFlagValues where
  tps : Int
  host : String
  agent : List String
  port : Int
  vizHost : String
  recordFile : String
  map : String
  noBrowser : Bool
  debug : Bool
  quiet : Bool
  profile : Bool
  dumpRawComm : Bool
  duration : Int
deriving DecidableEq, Repr

/-- The command line that gives every train flag its value. -/
def TrainFlagValues.given (v : TrainFlagValues) : List (String × Given) :=
  [("tps", .int v.tps), ("host", .string v.host)]
    ++ v.agent.map (fun a => ("agent", Given.string a))
    ++ [("port", .int v.port), ("viz-host", .string v.vizHost),
        ("record-file", .string v.recordFile), ("map", .string v.map),
        ("no-browser", .bool v.noBrowser), ("debug", .bool v.debug),
        ("quiet", .bool v.quiet), ("profile", .bool v.profile),
        ("dump-raw-comm", .bool v.dumpRawComm), ("duration", .int v.duration)]

/-- Collaborators that all succeed. -/
def envOk : Env :=
  { buildBashComplete := fun _ => ("", none),
    buildMain := fun _ => (false, none),
    generateBashComplete := ("", none),
    generateMain := fun _ => (false, none),
    TrainAction := fun _ => (false, none) }

/-- Collaborators that all fail and ask for the usage text. -/
def envFail : Env :=
  { buildBashComplete := fun _ => ("", some ⟨"boom"⟩),
    buildMain := fun _ => (true, some ⟨"boom"⟩),
    generateBashComplete := ("", some ⟨"boom"⟩),
    generateMain := fun _ => (true, some ⟨"boom"⟩),
    TrainAction := fun _ => (true, some ⟨"boom"⟩) }

/-- The value a command line leaves in the int flag `name` whose default is
`d`: the last one given, `d` when the flag does not occur. -/
def lastInt (name : String) : Int → List (String × Given) → Int
  | d, [] => d
  | d, (n, .int i) :: rest => if n = name then lastInt name i rest else lastInt name d rest
  | d, _ :: rest => lastInt name d rest

end Ba

/-! # The session loop behind `train.TrainAction`

`train.TrainAction` is called by `main.go` but its body is not part of the
sources at hand.  The definitions of this section follow the specification of
the training-session orchestrator (its sections 3, 4.2 and 4.5).  Wall-clock
time, the network and the simulation rules stay outside: what they present at
a tick boundary is a `TickInput`.
-/

namespace Orchestrator

/-- Modelled from the spec: the connection state of an AgentHandle
(`Pending → Connected → Acknowledging → Disconnected/Failed`); the body of
`train.TrainAction` is missing. -/
inductive ConnState where
  | Pending
  | Connected
  | Acknowledging
  | Disconnected
  | Failed
deriving DecidableEq, Repr

/-- Modelled from the spec: an AgentHandle of the Agent Connection Manager;
its index is its position in the list of handles. The body of
`train.TrainAction` is missing. -/
structure AgentHandle where
  state : ConnState
  lastSeen : Nat
  missed : Nat
deriving DecidableEq, Repr

/-- Modelled from the spec: the terminal outcome of a session (section 3);
the body of `train.TrainAction` is missing. -/
inductive SessionResult where
  | CompletedNormally
  | TimedOut
  | Aborted (reason : String)
  | AgentFailure (agentIndex : Nat) (reason : String)
deriving DecidableEq, Repr

/-- Modelled from the spec: the states of the Session Loop (section 4.5);
the body of `train.TrainAction` is missing. -/
inductive Phase where
  | Initializing
  | Running
  | Draining
  | Terminated
deriving DecidableEq, Repr

/-- Modelled from the spec: the four termination triggers of section 4.5, in
the order (a), (b), (c), (d); the body of `train.TrainAction` is missing. -/
inductive Trigger where
  | maxDuration
  | noAgents
  | externalAbort
  | concluded
deriving DecidableEq, Repr

/-- Modelled from the spec: what the clock, the agents, the operator and the
simulation rules present at one tick: whether the configured maximum duration
has elapsed, which agents (by index) answered within the per-agent timeout,
whether an external abort was signalled, whether the game has concluded. The
body of `train.TrainAction` is missing. -/
structure TickInput where
  durationElapsed : Bool
  responded : List Nat
  abort : Bool
  concluded : Bool
deriving DecidableEq, Repr

/-- Modelled from the spec: the default number of consecutive missed ticks at
which an agent fails (section 4.2, "policy: ≥3 by default"). The body of
`train.TrainAction` is missing. -/
def missLimit : Nat := 3

/-- Modelled from the spec: an agent takes part in input collection while its
handle is `Connected` or `Acknowledging`. The body of
`train.TrainAction` is missing. -/
def AgentHandle.connected (h : AgentHandle) : Bool :=
  h.state = .Connected || h.state = .Acknowledging

/-- Modelled from the spec: the effect of one `CollectInputs` on a handle
(section 4.2). A connected agent that answers is seen at this tick; one that
does not is `Missing` for the tick and fails at `missLimit` consecutive misses;
a handle that is not connected is left alone (never re-added). The body of
`train.TrainAction` is missing. -/
def AgentHandle.collect (tick : Nat) (answered : Bool) (h : AgentHandle) : AgentHandle :=
  if h.connected then
    if answered then { h with lastSeen := tick, missed := 0 }
    else if missLimit ≤ h.missed + 1 then { h with state := .Failed, missed := h.missed + 1 }
    else { h with missed := h.missed + 1 }
  else h

/-- Modelled from the spec: `CollectInputs` on the handles from index `k` on. The body of
`train.TrainAction` is missing. -/
def collectFrom (tick : Nat) (responded : List Nat) : Nat → List AgentHandle → List AgentHandle
  | _, [] => []
  | k, h :: hs => h.collect tick (responded.contains k) :: collectFrom tick responded (k + 1) hs

/-- Modelled from the spec: the mapping agentIndex → input (`true`) or Missing
(`false`) that `CollectInputs` returns: one entry per connected agent, from
index `k` on. The body of
`train.TrainAction` is missing. -/
def askedFrom (responded : List Nat) : Nat → List AgentHandle → List (Nat × Bool)
  | _, [] => []
  | k, h :: hs =>
    if h.connected then (k, responded.contains k) :: askedFrom responded (k + 1) hs
    else askedFrom responded (k + 1) hs

/-- Modelled from the spec: whether a termination trigger holds at a tick,
given the handles after input collection. The body of
`train.TrainAction` is missing. -/
def Trigger.holds (agents : List AgentHandle) (i : TickInput) : Trigger → Bool
  | .maxDuration => i.durationElapsed
  | .noAgents => agents.all (fun h => !h.connected)
  | .externalAbort => i.abort
  | .concluded => i.concluded

/-- Modelled from the spec: the place of a trigger in the precedence order. The body of
`train.TrainAction` is missing. -/
def Trigger.rank : Trigger → Nat
  | .maxDuration => 0
  | .noAgents => 1
  | .externalAbort => 2
  | .concluded => 3

/-- Modelled from the spec: the SessionResult of a trigger (section 4.5). The
index reported with `AgentFailure` is that of the first failed handle. The body of
`train.TrainAction` is missing. -/
def Trigger.result (agents : List AgentHandle) : Trigger → SessionResult
  | .maxDuration => .TimedOut
  | .noAgents => .AgentFailure (agents.findIdx (fun h => h.state = .Failed)) "no agent connected"
  | .externalAbort => .Aborted "external signal"
  | .concluded => .CompletedNormally

/-- Modelled from the spec: step 5 of `Running`, the termination conditions
evaluated in their precedence order. The body of `train.TrainAction` is
missing. -/
def evaluate (agents : List AgentHandle) (i : TickInput) : Option Trigger :=
  if i.durationElapsed then some .maxDuration
  else if agents.all (fun h => !h.connected) then some .noAgents
  else if i.abort then some .externalAbort
  else if i.concluded then some .concluded
  else none

/-- Modelled from the spec: the Session Loop's state: its phase, the tick
number, the handles, and the SessionResult once a trigger has fired. The body of
`train.TrainAction` is missing. -/
structure Session where
  phase : Phase
  tick : Nat
  agents : List AgentHandle
  result : Option SessionResult
deriving DecidableEq, Repr

/-- Modelled from the spec: what one step of the loop hands out: the next
state, the input mapping collected (empty when no collection took place) and
the trigger that fired, if any. The body of
`train.TrainAction` is missing. -/
structure StepOut where
  next : Session
  inputs : List (Nat × Bool)
  fired : Option Trigger
deriving DecidableEq, Repr

/-- Modelled from the spec: the end of `Initializing` (section 4.5): with all
`n` agents connected the session is `Running` at tick 0; an unrecoverable
failure leads directly to `Terminated` with `Aborted(reason)`. The body of
`train.TrainAction` is missing. -/
def Session.start (n : Nat) (failure : Option String) : Session :=
  match failure with
  | some reason =>
    { phase := .Terminated, tick := 0, agents := [], result := some (.Aborted reason) }
  | none =>
    { phase := .Running, tick := 0,
      agents := List.replicate n { state := .Connected, lastSeen := 0, missed := 0 },
      result := none }

/-- Modelled from the spec: one step of the Session Loop (section 4.5). In
`Running`, inputs are collected for the tick, then the termination conditions
are evaluated: a trigger moves the session to `Draining` with its result,
otherwise the tick number is incremented. `Draining` collects nothing,
evaluates nothing and proceeds to `Terminated`, which is terminal. The body of
`train.TrainAction` is missing. -/
def step (s : Session) (i : TickInput) : StepOut :=
  match s.phase with
  | .Running =>
    let agents := collectFrom s.tick i.responded 0 s.agents
    let inputs := askedFrom i.responded 0 s.agents
    match evaluate agents i with
    | some t =>
      { next := { phase := .Draining, tick := s.tick, agents := agents,
                  result := some (t.result agents) },
        inputs := inputs, fired := some t }
    | none =>
      { next := { s with tick := s.tick + 1, agents := agents },
        inputs := inputs, fired := none }
  | .Draining => { next := { s with phase := .Terminated }, inputs := [], fired := none }
  | .Initializing => { next := s, inputs := [], fired := none }
  | .Terminated => { next := s, inputs := [], fired := none }

/-- Modelled from the spec: the state after a sequence of steps. The body of
`train.TrainAction` is missing. -/
def run : Session → List TickInput → Session
  | s, [] => s
  | s, i :: more => run (step s i).next more

/-- Modelled from the spec: the triggers fired along a sequence of steps. The body of
`train.TrainAction` is missing. -/
def firedAlong : Session → List TickInput → List Trigger
  | _, [] => []
  | s, i :: more => (step s i).fired.toList ++ firedAlong (step s i).next more

/-- Modelled from the spec: the input mappings collected along a sequence of
steps, one per step. The body of
`train.TrainAction` is missing. -/
def inputsAlong : Session → List TickInput → List (List (Nat × Bool))
  | _, [] => []
  | s, i :: more => (step s i).inputs :: inputsAlong (step s i).next more

/-- Modelled from the spec: agent `k` misses the tick presented as `i` to the
session `s`: the clock fires the tick (section 4.1: the clock stops when the
maximum duration elapses, so a tick is fired only while it has not) and input
collection marks the agent Missing for it (section 4.2). The body of
`train.TrainAction` is missing. -/
def missesTick (s : Session) (i : TickInput) (k : Nat) : Bool :=
  !i.durationElapsed && (step s i).inputs.contains (k, false)

/-- A tick at which no agent answers and no trigger input is raised. -/
def tickSilent : TickInput :=
  { durationElapsed := false, responded := [], abort := false, concluded := false }

/-- A tick at which agents 0 and 1 answer and no trigger input is raised. -/
def tickQuiet : TickInput :=
  { durationElapsed := false, responded := [0, 1], abort := false, concluded := false }

/-- A tick at which agents 0 and 1 answer while the maximum duration has
elapsed, an abort is signalled and the game has concluded. -/
def tickAll : TickInput :=
  { durationElapsed := true, responded := [0, 1], abort := true, concluded := true }

end Orchestrator

namespace Ba

open Cli

/-! ## Lemmas on traces -/

theorem trainCalls_commandFailWith (name : String) (showUsage : Bool) (c : Context)
    (err : GoError) : trainCalls (commandFailWith name showUsage c err) = [] := by
  cases showUsage <;> simp [commandFailWith, trainCalls]

theorem trainAction_fst (env : Env) (c : Context) :
    (trainAction env c).1 = Event.TrainAction (trainArgs c) ::
      (match (env.TrainAction (trainArgs c)).2 with
        | some e => commandFailWith "train" (env.TrainAction (trainArgs c)).1 c e
        | none => []) := by
  simp only [trainAction]
  cases (env.TrainAction (trainArgs c)).2 <;> simp

theorem trainCalls_trainAction (env : Env) (c : Context) :
    trainCalls (trainAction env c).1 = [trainArgs c] := by
  rw [trainAction_fst]
  cases (env.TrainAction (trainArgs c)).2 <;>
    simp [trainCalls, trainCalls_commandFailWith]

theorem findCommand_train :
    findCommand makeapp "train"
      = some (.mk "train" ["t"] "Train your agent" trainFlags none (some trainAction) []) := by
  rfl

theorem invoke_train (env : Env) (given : List (String × Given)) (args : List String) :
    invoke env makeapp "train" given args
      = (NewContext trainFlags given args).map (trainAction env) := by
  simp only [invoke, findCommand_train, Command.Action, Command.Flags]
  cases NewContext trainFlags given args <;> rfl

/-! ## Lemmas on flag sets -/

theorem Parse_append (fs : FlagSet) (a b : List (String × Given)) :
    FlagSet.Parse fs (a ++ b) = (FlagSet.Parse fs a).bind (fun fs1 => FlagSet.Parse fs1 b) := by
  induction a generalizing fs with
  | nil => simp [FlagSet.Parse]
  | cons x a ih =>
    obtain ⟨name, g⟩ := x
    simp only [List.cons_append, FlagSet.Parse]
    cases FlagSet.Set fs name g with
    | none => simp
    | some fs1 => simpa using ih fs1

theorem Parse_agents (t h : FlagValue) (l agents : List String) (rest : FlagSet) :
    FlagSet.Parse (("tps", t) :: ("host", h) :: ("agent", .stringSlice l) :: rest)
        (agents.map (fun a => ("agent", Given.string a)))
      = some (("tps", t) :: ("host", h) :: ("agent", .stringSlice (l ++ agents)) :: rest) := by
  induction agents generalizing l with
  | nil => simp [FlagSet.Parse]
  | cons a agents ih =>
    simp only [List.map_cons, FlagSet.Parse, FlagSet.Set, FlagValue.Set]
    simp only [show ("tps" = "agent") = False by decide,
      show ("host" = "agent") = False by decide, if_false, if_true, Option.map_some']
    rw [ih]
    simp

/-! ## The train command -/

/-- C1: invoked with no flags, the train Action runs, returns nil and calls
`train.TrainAction` once with tick rate 20, the empty listening host, port
8080, visualization host 127.0.0.1, an empty recording path, no agents, map
hexagon, every boolean flag false and duration 0. -/
theorem train_no_flags_defaults (env : Env) (args : List String) :
    ∃ tr, invoke env makeapp "train" [] args = some (tr, none) ∧
      trainCalls tr =
        [{ tps := 20, host := "", port := 8080, vizhost := "127.0.0.1", nobrowser := false,
           recordFile := "", agents := [], isDebug := false, isQuiet := false,
           mapName := "hexagon", shouldProfile := false, dumpRaw := false, duration := 0 }] := by
  refine ⟨(trainAction env ⟨trainFlags.map Flag.Apply, args⟩).1, ?_, ?_⟩
  · rw [invoke_train]; rfl
  · rw [trainCalls_trainAction]; rfl

/-- C2: for every value of the thirteen train flags, the train Action calls
`train.TrainAction` exactly once, each flag value unaltered in its parameter
position (tps, host, port, viz-host, no-browser, record-file, agent, debug,
quiet, map, profile, dump-raw-comm, duration), the agent list in the given
order. -/
theorem train_flags_forwarded (env : Env) (v : TrainFlagValues) (args : List String) :
    ∃ tr, invoke env makeapp "train" v.given args = some (tr, none) ∧
      trainCalls tr =
        [{ tps := v.tps, host := v.host, port := v.port, vizhost := v.vizHost,
           nobrowser := v.noBrowser, recordFile := v.recordFile, agents := v.agent,
           isDebug := v.debug, isQuiet := v.quiet, mapName := v.map,
           shouldProfile := v.profile, dumpRaw := v.dumpRawComm,
           duration := v.duration }] := by
  have key : ∃ c, NewContext trainFlags v.given args = some c ∧ trainArgs c =
      { tps := v.tps, host := v.host, port := v.port, vizhost := v.vizHost,
        nobrowser := v.noBrowser, recordFile := v.recordFile, agents := v.agent,
        isDebug := v.debug, isQuiet := v.quiet, mapName := v.map,
        shouldProfile := v.profile, dumpRaw := v.dumpRawComm,
        duration := v.duration } := by
    refine ⟨⟨[("tps", .int v.tps), ("host", .string v.host), ("agent", .stringSlice v.agent),
          ("port", .int v.port), ("viz-host", .string v.vizHost),
          ("record-file", .string v.recordFile), ("map", .string v.map),
          ("no-browser", .bool v.noBrowser), ("debug", .bool v.debug),
          ("quiet", .bool v.quiet), ("profile", .bool v.profile),
          ("dump-raw-comm", .bool v.dumpRawComm), ("duration", .int v.duration)], args⟩,
        ?_, rfl⟩
    unfold NewContext TrainFlagValues.given
    rw [Parse_append, Parse_append]
    have h1 : FlagSet.Parse (trainFlags.map Flag.Apply)
        [("tps", .int v.tps), ("host", .string v.host)]
        = some (("tps", .int v.tps) :: ("host", .string v.host) :: ("agent", .stringSlice [])
            :: (trainFlags.map Flag.Apply).drop 3) := rfl
    rw [h1, Option.some_bind, Parse_agents, Option.some_bind]
    rfl
  obtain ⟨c, hc, ha⟩ := key
  refine ⟨(trainAction env c).1, ?_, ?_⟩
  · rw [invoke_train, hc]; rfl
  · rw [trainCalls_trainAction, ha]

theorem Set_head_int (t : Int) (rest : FlagSet) (name : String) (g : Given) (fs : FlagSet)
    (h : FlagSet.Set (("tps", .int t) :: rest) name g = some fs) :
    ∃ rest1, fs = ("tps", .int (lastInt "tps" t [(name, g)])) :: rest1 := by
  simp only [FlagSet.Set] at h
  by_cases hn : "tps" = name
  · subst hn
    cases g with
    | int i =>
      simp [FlagValue.Set] at h
      exact ⟨rest, by simp [← h, lastInt]⟩
    | string s => simp [FlagValue.Set] at h
    | bool b => simp [FlagValue.Set] at h
  · rw [if_neg hn] at h
    cases hr : FlagSet.Set rest name g with
    | none => simp [hr] at h
    | some r =>
      simp [hr] at h
      refine ⟨r, ?_⟩
      have hn2 : ¬ name = "tps" := fun e => hn e.symm
      cases g <;> simp [← h, lastInt, hn2]

theorem lastInt_cons (name : String) (d : Int) (x : String × Given)
    (rest : List (String × Given)) :
    lastInt name d (x :: rest) = lastInt name (lastInt name d [x]) rest := by
  obtain ⟨n, g⟩ := x
  cases g with
  | int i => by_cases hn : n = name <;> simp [lastInt, hn]
  | string s => simp [lastInt]
  | bool b => simp [lastInt]

theorem Parse_head_int (t : Int) (rest : FlagSet) (given : List (String × Given))
    (fs : FlagSet) (h : FlagSet.Parse (("tps", .int t) :: rest) given = some fs) :
    fs.lookup "tps" = some (.int (lastInt "tps" t given)) := by
  induction given generalizing t rest with
  | nil =>
    simp only [FlagSet.Parse, Option.some.injEq] at h
    subst h
    simp [FlagSet.lookup, lastInt]
  | cons x given ih =>
    obtain ⟨name, g⟩ := x
    simp only [FlagSet.Parse] at h
    cases hs : FlagSet.Set (("tps", .int t) :: rest) name g with
    | none => simp [hs] at h
    | some fs1 =>
      simp only [hs] at h
      obtain ⟨rest1, rfl⟩ := Set_head_int t rest name g fs1 hs
      rw [lastInt_cons]
      exact ih _ _ h

theorem lastInt_pos (name : String) (d : Int) (given : List (String × Given)) (hd : 0 < d)
    (h : ∀ v, (name, Given.int v) ∈ given → 0 < v) : 0 < lastInt name d given := by
  induction given generalizing d with
  | nil => simpa [lastInt] using hd
  | cons x given ih =>
    obtain ⟨n, g⟩ := x
    have hrest : ∀ v, (name, Given.int v) ∈ given → 0 < v :=
      fun v hv => h v (List.mem_cons_of_mem _ hv)
    cases g with
    | int i =>
      by_cases hn : n = name
      · subst hn
        simp only [lastInt, if_true]
        exact ih i (h i (List.mem_cons_self _ _)) hrest
      · simp only [lastInt, if_neg hn]
        exact ih d hd hrest
    | string s => simpa [lastInt] using ih d hd hrest
    | bool b => simpa [lastInt] using ih d hd hrest

theorem Set_lookup_ne (fs fs1 : FlagSet) (name k : String) (g : Given) (hne : name ≠ k)
    (h : FlagSet.Set fs name g = some fs1) : fs1.lookup k = fs.lookup k := by
  induction fs generalizing fs1 with
  | nil => simp [FlagSet.Set] at h
  | cons e fs ih =>
    obtain ⟨n, v⟩ := e
    simp only [FlagSet.Set] at h
    by_cases hn : n = name
    · subst hn
      rw [if_pos rfl] at h
      cases hv : v.Set g with
      | none => simp [hv] at h
      | some w =>
        simp [hv] at h
        subst h
        simp [FlagSet.lookup, hne]
    · rw [if_neg hn] at h
      cases hr : FlagSet.Set fs name g with
      | none => simp [hr] at h
      | some r =>
        simp [hr] at h
        subst h
        simp [FlagSet.lookup, ih r hr]

theorem Parse_lookup_ne (fs fs1 : FlagSet) (k : String) (given : List (String × Given))
    (hne : ∀ x ∈ given, x.1 ≠ k) (h : FlagSet.Parse fs given = some fs1) :
    fs1.lookup k = fs.lookup k := by
  induction given generalizing fs with
  | nil =>
    simp only [FlagSet.Parse, Option.some.injEq] at h
    subst h; rfl
  | cons x given ih =>
    obtain ⟨name, g⟩ := x
    simp only [FlagSet.Parse] at h
    cases hs : FlagSet.Set fs name g with
    | none => simp [hs] at h
    | some fs2 =>
      simp only [hs] at h
      rw [ih fs2 (fun y hy => hne y (List.mem_cons_of_mem _ hy)) h]
      exact Set_lookup_ne fs fs2 name k g (hne (name, g) (List.mem_cons_self _ _)) hs

theorem Set_same_int (fs : FlagSet) (k : String) (i : Int)
    (h : fs.lookup k = some (.int i)) : FlagSet.Set fs k (.int i) = some fs := by
  induction fs with
  | nil => simp [FlagSet.lookup] at h
  | cons e fs ih =>
    obtain ⟨n, v⟩ := e
    simp only [FlagSet.lookup] at h
    simp only [FlagSet.Set]
    by_cases hn : n = k
    · subst hn
      rw [if_pos rfl] at h
      simp only [Option.some.injEq] at h
      subst h
      simp [FlagValue.Set]
    · rw [if_neg hn] at h
      rw [if_neg hn, ih h]
      rfl

theorem invoke_train_some (env : Env) (given : List (String × Given)) (args : List String)
    (tr : List Event) (r : Option GoError)
    (h : invoke env makeapp "train" given args = some (tr, r)) :
    ∃ c, NewContext trainFlags given args = some c ∧ tr = (trainAction env c).1 ∧ r = none := by
  rw [invoke_train] at h
  cases hc : NewContext trainFlags given args with
  | none => simp [hc] at h
  | some c =>
    simp only [hc, Option.map_some', Option.some.injEq] at h
    refine ⟨c, rfl, ?_, ?_⟩
    · rw [h]
    · have h2 : (trainAction env c).2 = r := by rw [h]
      rw [← h2]; rfl

/-- C3, as stated, fails: with `--tps 0` the train Action runs and hands tick
rate 0 to `train.TrainAction`. -/
theorem train_tps_zero_forwarded :
    ¬ (∀ (env : Env) (given : List (String × Given)) (args : List String)
        (tr : List Event) (r : Option GoError),
        invoke env makeapp "train" given args = some (tr, r) →
        ∀ a ∈ trainCalls tr, 0 < a.tps) := by
  intro h
  have h0 := h envOk [("tps", .int 0)] [] _ _ rfl
    { tps := 0, host := "", port := 8080, vizhost := "127.0.0.1", nobrowser := false,
      recordFile := "", agents := [], isDebug := false, isQuiet := false,
      mapName := "hexagon", shouldProfile := false, dumpRaw := false, duration := 0 }
    (by decide)
  exact absurd h0 (by decide)

/-- C3, amended: whenever the train Action runs, `train.TrainAction` is called
once with the tick rate the command line asks for, unvalidated: the last value
given to `tps`, 20 when the flag is not given; it is greater than 0 whenever
every value given to `tps` is. -/
theorem train_tps_as_given (env : Env) (given : List (String × Given)) (args : List String)
    (tr : List Event) (r : Option GoError)
    (h : invoke env makeapp "train" given args = some (tr, r)) :
    ∃ a, trainCalls tr = [a] ∧ a.tps = lastInt "tps" 20 given ∧
      ((∀ v, ("tps", Given.int v) ∈ given → 0 < v) → 0 < a.tps) := by
  obtain ⟨c, hc, rfl, -⟩ := invoke_train_some env given args tr r h
  have hl : c.flagSet.lookup "tps" = some (.int (lastInt "tps" 20 given)) := by
    simp only [NewContext] at hc
    cases hp : FlagSet.Parse (trainFlags.map Flag.Apply) given with
    | none => simp [hp] at hc
    | some fs =>
      simp only [hp, Option.map_some', Option.some.injEq] at hc
      subst hc
      exact Parse_head_int 20 _ given fs hp
  have ht : (trainArgs c).tps = lastInt "tps" 20 given := by
    simp [trainArgs, Context.lookupInt, hl]
  refine ⟨trainArgs c, trainCalls_trainAction env c, ht, fun hpos => ?_⟩
  rw [ht]
  exact lastInt_pos "tps" 20 given (by decide) hpos

/-- Witness of C3 amended: `--tps 30 --host h` runs and passes 30. -/
theorem train_tps_as_given_witness :
    ∃ a, trainCalls [Event.TrainAction
          { tps := 30, host := "h", port := 8080, vizhost := "127.0.0.1", nobrowser := false,
            recordFile := "", agents := [], isDebug := false, isQuiet := false,
            mapName := "hexagon", shouldProfile := false, dumpRaw := false, duration := 0 }]
        = [a] ∧ a.tps = lastInt "tps" 20 [("tps", .int 30), ("host", .string "h")] ∧
      ((∀ v, ("tps", Given.int v) ∈ [("tps", Given.int 30), ("host", Given.string "h")] → 0 < v)
        → 0 < a.tps) :=
  train_tps_as_given envOk [("tps", .int 30), ("host", .string "h")] [] _ none rfl

/-- C4: with the other flags equal, a command line that sets `duration` to 0
and one that leaves it out give the same run of the train Action, hence the
same arguments to `train.TrainAction`, and the duration passed is 0. -/
theorem train_duration_unset_is_zero (env : Env) (g1 g2 : List (String × Given))
    (args : List String) (h : ∀ x ∈ g1 ++ g2, x.1 ≠ "duration") :
    invoke env makeapp "train" (g1 ++ ("duration", .int 0) :: g2) args
        = invoke env makeapp "train" (g1 ++ g2) args ∧
      ∀ tr r, invoke env makeapp "train" (g1 ++ g2) args = some (tr, r) →
        ∃ a, trainCalls tr = [a] ∧ a.duration = 0 := by
  constructor
  · rw [invoke_train, invoke_train]
    unfold NewContext
    rw [Parse_append, Parse_append]
    cases hp : FlagSet.Parse (trainFlags.map Flag.Apply) g1 with
    | none => rfl
    | some fs1 =>
      have hl : fs1.lookup "duration" = some (.int 0) := by
        rw [Parse_lookup_ne _ fs1 "duration" g1
          (fun x hx => h x (List.mem_append_left _ hx)) hp]
        rfl
      simp only [Option.some_bind, FlagSet.Parse, Set_same_int fs1 "duration" 0 hl]
  · intro tr r hi
    obtain ⟨c, hc, rfl, -⟩ := invoke_train_some env _ args tr r hi
    have hl : c.flagSet.lookup "duration" = some (.int 0) := by
      simp only [NewContext] at hc
      cases hp : FlagSet.Parse (trainFlags.map Flag.Apply) (g1 ++ g2) with
      | none => simp [hp] at hc
      | some fs =>
        simp only [hp, Option.map_some', Option.some.injEq] at hc
        subst hc
        rw [Parse_lookup_ne _ fs "duration" (g1 ++ g2) h hp]
        rfl
    exact ⟨trainArgs c, trainCalls_trainAction env c, by
      simp [trainArgs, Context.lookupInt, hl]⟩

/-- Witness of C4: `--tps 5 --duration 0 --host h` against `--tps 5 --host h`. -/
theorem train_duration_unset_is_zero_witness :
    invoke envOk makeapp "train"
        ([("tps", .int 5)] ++ ("duration", .int 0) :: [("host", .string "h")]) []
        = invoke envOk makeapp "train" ([("tps", .int 5)] ++ [("host", .string "h")]) [] ∧
      ∀ tr r, invoke envOk makeapp "train" ([("tps", .int 5)] ++ [("host", .string "h")]) []
          = some (tr, r) →
        ∃ a, trainCalls tr = [a] ∧ a.duration = 0 :=
  train_duration_unset_is_zero envOk [("tps", .int 5)] [("host", .string "h")] [] (by decide)

/-- C5: for every result (showUsage, err) of `train.TrainAction`, the train
Action returns nil; after the call it runs `commandFailWith("train",
showUsage, c, err)` when err is an error and does nothing more when err is
nil, so `utils.FailWith` is reached exactly when err is an error. -/
theorem train_result_mapped (env : Env) (c : Context) (showUsage : Bool)
    (err : Option GoError) (h : env.TrainAction (trainArgs c) = (showUsage, err)) :
    (trainAction env c).2 = none ∧
      (∀ e, err = some e → (trainAction env c).1
        = Event.TrainAction (trainArgs c) :: commandFailWith "train" showUsage c e) ∧
      (err = none → (trainAction env c).1 = [Event.TrainAction (trainArgs c)]) ∧
      (failCalls (trainAction env c).1 ≠ [] ↔ err ≠ none) := by
  refine ⟨rfl, ?_, ?_, ?_⟩
  · intro e he
    rw [trainAction_fst, h, he]
  · intro he
    rw [trainAction_fst, h, he]
  · rw [trainAction_fst, h]
    cases err with
    | none => simp [failCalls]
    | some e => cases showUsage <;> simp [failCalls, commandFailWith]

/-- Witness of C5: a failing `train.TrainAction` that asks for the usage. -/
theorem train_result_mapped_witness :
    (trainAction envFail ⟨[], []⟩).2 = none ∧
      (∀ e, some (GoError.mk "boom") = some e → (trainAction envFail ⟨[], []⟩).1
        = Event.TrainAction (trainArgs ⟨[], []⟩) :: commandFailWith "train" true ⟨[], []⟩ e) ∧
      (some (GoError.mk "boom") = none →
        (trainAction envFail ⟨[], []⟩).1 = [Event.TrainAction (trainArgs ⟨[], []⟩)]) ∧
      (failCalls (trainAction envFail ⟨[], []⟩).1 ≠ [] ↔ some (GoError.mk "boom") ≠ none) :=
  train_result_mapped envFail ⟨[], []⟩ true (some ⟨"boom"⟩) rfl

/-! ## `commandFailWith` -/

theorem failCalls_append (a b : List Event) : failCalls (a ++ b) = failCalls a ++ failCalls b := by
  induction a with
  | nil => rfl
  | cons e a ih => cases e <;> simp [failCalls, ih]

theorem failCalls_commandFailWith (name : String) (showUsage : Bool) (c : Context)
    (err : GoError) :
    failCalls (commandFailWith name showUsage c err)
      = [{ message := "Failed to execute command", context := [("command", name)],
           errors := [err] }] := by
  cases showUsage <;>
    simp [commandFailWith, failCalls, bettererrors.With, bettererrors.SetContext,
      bettererrors.New]

/-- C8: `commandFailWith` shows the help of the command `name` exactly when
showUsage is true and then, as its last step, calls `utils.FailWith` once with
a chain that wraps the original error and has the context command = name.
Every Action and completion closure registered by `makeapp` hands
`utils.FailWith` only chains carrying the name of its own command, and the
build, generate and train Actions do so once when their collaborator fails. -/
theorem commandFailWith_reports (name : String) (showUsage : Bool) (c : Context)
    (err : GoError) (env : Env) :
    helpCalls (commandFailWith name showUsage c err) = (if showUsage then [name] else []) ∧
    (∃ pre b, commandFailWith name showUsage c err = pre ++ [Event.FailWith b] ∧
      failCalls pre = [] ∧ b.errors = [err] ∧ b.context = [("command", name)]) ∧
    (∀ cmd ∈ makeapp,
      (∀ act, cmd.Action = some act →
        ∀ b ∈ failCalls (act env c).1, b.context = [("command", cmd.Name)]) ∧
      (∀ bc, cmd.BashComplete = some bc →
        ∀ b ∈ failCalls (bc env c), b.context = [("command", cmd.Name)])) ∧
    ((env.buildMain (c.ArgsGet 0)).2 = some err →
      (failCalls (buildAction env c).1).map Chain.context = [[("command", "build")]]) ∧
    ((env.generateMain (c.ArgsGet 0)).2 = some err →
      (failCalls (generateAction env c).1).map Chain.context = [[("command", "generate")]]) ∧
    ((env.TrainAction (trainArgs c)).2 = some err →
      (failCalls (trainAction env c).1).map Chain.context = [[("command", "train")]]) := by
  refine ⟨?_, ?_, ?_, ?_, ?_, ?_⟩
  · cases showUsage <;> simp [commandFailWith, helpCalls]
  · refine ⟨if showUsage then [Event.ShowCommandHelp c name] else [], _, rfl, ?_, ?_, ?_⟩
    · cases showUsage <;> simp [failCalls]
    · simp [bettererrors.With, bettererrors.SetContext, bettererrors.New]
    · simp [bettererrors.With, bettererrors.SetContext, bettererrors.New]
  · intro cmd hcmd
    simp only [makeapp, List.mem_cons, List.mem_singleton, List.not_mem_nil, or_false] at hcmd
    rcases hcmd with rfl | rfl | rfl | rfl
    · constructor
      · intro act hact b hb
        simp only [Command.Action, Option.some.injEq] at hact
        subst hact
        simp only [buildAction, failCalls_append, failCalls] at hb
        cases he : (env.buildMain (c.ArgsGet 0)).2 with
        | none => simp [he, failCalls] at hb
        | some e =>
          simp [he, failCalls_append, failCalls_commandFailWith, failCalls] at hb
          subst hb; rfl
      · intro bc hbc b hb
        simp only [Command.BashComplete, Option.some.injEq] at hbc
        subst hbc
        simp only [buildBashComplete, failCalls_append, failCalls] at hb
        cases he : (env.buildBashComplete (c.ArgsGet 0)).2 with
        | none => simp [he, failCalls] at hb
        | some e =>
          simp [he, failCalls_append, failCalls_commandFailWith, failCalls] at hb
          subst hb; rfl
    · constructor
      · intro act hact b hb
        simp only [Command.Action, Option.some.injEq] at hact
        subst hact
        simp only [generateAction, failCalls_append, failCalls] at hb
        cases he : (env.generateMain (c.ArgsGet 0)).2 with
        | none => simp [he, failCalls] at hb
        | some e =>
          simp [he, failCalls_append, failCalls_commandFailWith, failCalls] at hb
          subst hb; rfl
      · intro bc hbc b hb
        simp only [Command.BashComplete, Option.some.injEq] at hbc
        subst hbc
        simp only [generateBashComplete, failCalls_append, failCalls] at hb
        cases he : env.generateBashComplete.2 with
        | none => simp [he, failCalls] at hb
        | some e =>
          simp [he, failCalls_append, failCalls_commandFailWith, failCalls] at hb
          subst hb; rfl
    · constructor
      · intro act hact b hb
        simp only [Command.Action, Option.some.injEq] at hact
        subst hact
        simp only [trainAction, failCalls_append, failCalls] at hb
        cases he : (env.TrainAction (trainArgs c)).2 with
        | none => simp [he, failCalls] at hb
        | some e =>
          simp [he, failCalls_append, failCalls_commandFailWith, failCalls] at hb
          subst hb; rfl
      · intro bc hbc
        simp [Command.BashComplete] at hbc
    · constructor
      · intro act hact
        simp [Command.Action] at hact
      · intro bc hbc
        simp [Command.BashComplete] at hbc
  · intro he
    simp [buildAction, failCalls_append, failCalls, he, failCalls_commandFailWith]
  · intro he
    simp [generateAction, failCalls_append, failCalls, he, failCalls_commandFailWith]
  · intro he
    simp [trainAction, failCalls_append, failCalls, he, failCalls_commandFailWith]

/-! ## The command table -/

/-- C9: `makeapp` registers the four commands build, generate, train and map
in this order; their names and aliases are build, generate, gen, train, t, map,
pairwise distinct; the subcommands of map are update and list, distinct; the
train command declares thirteen flags with pairwise distinct names; no name
is answered to by more than one command. -/
theorem makeapp_names_distinct :
    makeapp.map Command.Name = ["build", "generate", "train", "map"] ∧
    makeapp.flatMap Command.Names = ["build", "generate", "gen", "train", "t", "map"] ∧
    (makeapp.flatMap Command.Names).Nodup ∧
    (findCommand makeapp "map").map (fun m => m.Subcommands.flatMap Command.Names)
      = some ["update", "list"] ∧
    ["update", "list"].Nodup ∧
    (findCommand makeapp "train").map Command.Flags = some trainFlags ∧
    (trainFlags.map Flag.Name).length = 13 ∧
    (trainFlags.map Flag.Name).Nodup ∧
    (∀ name, ((makeapp.filter (fun c => c.HasName name)).map Command.Name).length ≤ 1) := by
  refine ⟨by decide, by decide, by decide, by decide, by decide, by decide, by decide,
    by decide, fun name => ?_⟩
  by_cases h1 : name = "build"
  · subst h1; decide
  by_cases h2 : name = "generate"
  · subst h2; decide
  by_cases h3 : name = "gen"
  · subst h3; decide
  by_cases h4 : name = "train"
  · subst h4; decide
  by_cases h5 : name = "t"
  · subst h5; decide
  by_cases h6 : name = "map"
  · subst h6; decide
  have e1 : (name == "build") = false := by simpa using h1
  have e2 : (name == "generate") = false := by simpa using h2
  have e3 : (name == "gen") = false := by simpa using h3
  have e4 : (name == "train") = false := by simpa using h4
  have e5 : (name == "t") = false := by simpa using h5
  have e6 : (name == "map") = false := by simpa using h6
  simp [makeapp, List.filter, Command.HasName, Command.Names, Command.Name, Command.Aliases,
    List.contains, List.elem, h1, h2, h3, h4, h5, h6, e1, e2, e3, e4, e5, e6]

/-! ## The map command -/

/-- C10: the code departs from the claim. For `ba map --debug update` the
debug flag is set on the map command, yet the update Action reads it from its
own context, which declares no flag: `c.Bool("debug")` is false and
`mapcmd.MapUpdateAction` is handed the callback that prints nothing. Giving
the flag after `update` is a parse error, so no command line makes the Action
hand over the printing callback: whenever the update Action runs it calls
`mapcmd.MapUpdateAction` once, with the callback that does nothing, and
returns nil. -/
theorem map_update_debug_dropped :
    invokeSub envOk makeapp "map" [("debug", .bool true)] "update" [] []
      = some ([Event.MapUpdateAction DebugFn.noop], none) ∧
    (∀ str, DebugFn.noop.call str = []) ∧
    invokeSub envOk makeapp "map" [] "update" [("debug", .bool true)] [] = none ∧
    (∀ (env : Env) (given subGiven : List (String × Given)) (args : List String),
      invokeSub env makeapp "map" given "update" subGiven args = none ∨
      invokeSub env makeapp "map" given "update" subGiven args
        = some ([Event.MapUpdateAction DebugFn.noop], none)) := by
  refine ⟨by decide, fun _ => rfl, by decide, fun env given subGiven args => ?_⟩
  have hm : findCommand makeapp "map"
      = some (.mk "map" [] "Operations on map packs" [.BoolFlag "debug"] none none
          [ .mk "update" [] "Fetch the trainer maps if needed" [] none (some mapUpdateAction) [],
            .mk "list" [] "List the trainer maps locally available" [] none
              (some mapListAction) [] ]) := rfl
  have hu : findCommand
      [ Command.mk "update" [] "Fetch the trainer maps if needed" [] none
          (some mapUpdateAction) [],
        Command.mk "list" [] "List the trainer maps locally available" [] none
          (some mapListAction) [] ] "update"
      = some (.mk "update" [] "Fetch the trainer maps if needed" [] none
          (some mapUpdateAction) []) := rfl
  simp only [invokeSub, hm, Command.Flags, Command.Subcommands, hu, Command.Action]
  cases NewContext [Flag.BoolFlag "debug"] given ("update" :: args) with
  | none => left; rfl
  | some c0 =>
    cases subGiven with
    | nil => right; rfl
    | cons x more =>
      left
      obtain ⟨n, g⟩ := x
      rfl

end Ba

namespace Orchestrator

/-! ## Lemmas on the session loop -/

theorem step_agents (s : Session) (i : TickInput) :
    (step s i).next.agents
      = if s.phase = .Running then collectFrom s.tick i.responded 0 s.agents else s.agents := by
  unfold step
  cases hp : s.phase with
  | Running =>
    simp only [if_true]
    cases evaluate (collectFrom s.tick i.responded 0 s.agents) i <;> rfl
  | Initializing => simp
  | Draining => simp
  | Terminated => simp

theorem step_inputs (s : Session) (i : TickInput) :
    (step s i).inputs = if s.phase = .Running then askedFrom i.responded 0 s.agents else [] := by
  unfold step
  cases hp : s.phase with
  | Running =>
    simp only [if_true]
    cases evaluate (collectFrom s.tick i.responded 0 s.agents) i <;> rfl
  | Initializing => simp
  | Draining => simp
  | Terminated => simp

theorem step_fired (s : Session) (i : TickInput) :
    (step s i).fired
      = if s.phase = .Running then evaluate (collectFrom s.tick i.responded 0 s.agents) i
        else none := by
  unfold step
  cases hp : s.phase with
  | Running =>
    simp only [if_true]
    cases evaluate (collectFrom s.tick i.responded 0 s.agents) i <;> rfl
  | Initializing => simp
  | Draining => simp
  | Terminated => simp

theorem step_running_none (s : Session) (i : TickInput) (hs : s.phase = .Running)
    (hf : (step s i).fired = none) : (step s i).next.phase = .Running := by
  rw [step_fired, if_pos hs] at hf
  unfold step
  simp only [hs, hf]

theorem step_running_some (s : Session) (i : TickInput) (t : Trigger) (hs : s.phase = .Running)
    (hf : (step s i).fired = some t) :
    (step s i).next.phase = .Draining ∧
      (step s i).next.result
        = some (t.result (collectFrom s.tick i.responded 0 s.agents)) := by
  rw [step_fired, if_pos hs] at hf
  unfold step
  simp only [hs, hf, and_self]

theorem step_not_running (s : Session) (i : TickInput) (hs : s.phase ≠ .Running) :
    (step s i).next.phase ≠ .Running ∧ (step s i).next.result = s.result ∧
      (step s i).fired = none := by
  unfold step
  cases hp : s.phase with
  | Running => exact absurd hp hs
  | Initializing => simp [hp]
  | Draining => simp
  | Terminated => simp [hp]

theorem run_not_running (s : Session) (inputs : List TickInput) (hs : s.phase ≠ .Running) :
    (run s inputs).phase ≠ .Running ∧ (run s inputs).result = s.result ∧
      firedAlong s inputs = [] := by
  induction inputs generalizing s with
  | nil => exact ⟨hs, rfl, rfl⟩
  | cons i more ih =>
    obtain ⟨h1, h2, h3⟩ := step_not_running s i hs
    obtain ⟨k1, k2, k3⟩ := ih (step s i).next h1
    refine ⟨k1, ?_, ?_⟩
    · simp only [run]; rw [k2, h2]
    · simp only [firedAlong]; rw [k3, h3]; rfl

theorem run_append (s : Session) (a b : List TickInput) :
    run s (a ++ b) = run (run s a) b := by
  induction a generalizing s with
  | nil => rfl
  | cons i a ih =>
    simp only [List.cons_append, run]
    exact ih _

theorem firedAlong_length_le (s : Session) (inputs : List TickInput) :
    (firedAlong s inputs).length ≤ 1 := by
  induction inputs generalizing s with
  | nil => simp [firedAlong]
  | cons i more ih =>
    simp only [firedAlong]
    by_cases hs : s.phase = .Running
    · cases hf : (step s i).fired with
      | none => simpa using ih (step s i).next
      | some t =>
        have hd := (step_running_some s i t hs hf).1
        have hn : (step s i).next.phase ≠ .Running := by rw [hd]; decide
        rw [(run_not_running _ more hn).2.2]
        simp
    · rw [(step_not_running s i hs).2.2]
      simpa using ih (step s i).next

theorem firedAlong_length_eq (s : Session) (inputs : List TickInput) (hs : s.phase = .Running)
    (hend : (run s inputs).phase ≠ .Running) : (firedAlong s inputs).length = 1 := by
  induction inputs generalizing s with
  | nil => exact absurd hs hend
  | cons i more ih =>
    simp only [firedAlong]
    simp only [run] at hend
    cases hf : (step s i).fired with
    | none =>
      simpa using ih (step s i).next (step_running_none s i hs hf) hend
    | some t =>
      have hd := (step_running_some s i t hs hf).1
      have hn : (step s i).next.phase ≠ .Running := by rw [hd]; decide
      rw [(run_not_running _ more hn).2.2]
      simp

theorem evaluate_least (agents : List AgentHandle) (i : TickInput) (t : Trigger)
    (ht : t.holds agents i = true) :
    ∃ t0, evaluate agents i = some t0 ∧ t0.holds agents i = true ∧ t0.rank ≤ t.rank := by
  unfold evaluate
  by_cases h1 : i.durationElapsed = true
  · exact ⟨.maxDuration, by simp [h1], by simp [Trigger.holds, h1], by simp [Trigger.rank]⟩
  · by_cases h2 : (agents.all (fun h => !h.connected)) = true
    · refine ⟨.noAgents, by simp only [h1, h2]; simp, by simp only [Trigger.holds, h2], ?_⟩
      cases t with
      | maxDuration => exact absurd ht h1
      | noAgents => simp [Trigger.rank]
      | externalAbort => simp [Trigger.rank]
      | concluded => simp [Trigger.rank]
    · by_cases h3 : i.abort = true
      · refine ⟨.externalAbort, by simp only [h1, h2, h3]; simp,
          by simp only [Trigger.holds, h3], ?_⟩
        cases t with
        | maxDuration => exact absurd ht h1
        | noAgents => exact absurd ht h2
        | externalAbort => simp [Trigger.rank]
        | concluded => simp [Trigger.rank]
      · by_cases h4 : i.concluded = true
        · refine ⟨.concluded, by simp only [h1, h2, h3, h4]; simp,
            by simp only [Trigger.holds, h4], ?_⟩
          cases t with
          | maxDuration => exact absurd ht h1
          | noAgents => exact absurd ht h2
          | externalAbort => exact absurd ht h3
          | concluded => simp [Trigger.rank]
        · cases t with
          | maxDuration => exact absurd ht h1
          | noAgents => exact absurd ht h2
          | externalAbort => exact absurd ht h3
          | concluded => exact absurd ht h4

theorem evaluate_none (agents : List AgentHandle) (i : TickInput)
    (h : ∀ t : Trigger, t.holds agents i = false) : evaluate agents i = none := by
  have h1 := h .maxDuration
  have h2 := h .noAgents
  have h3 := h .externalAbort
  have h4 := h .concluded
  simp only [Trigger.holds] at h1 h2 h3 h4
  unfold evaluate
  simp [h1, h2, h3, h4]

theorem running_of_run_running (s : Session) (inputs : List TickInput)
    (h : (run s inputs).phase = .Running) : s.phase = .Running := by
  by_contra hs
  exact (run_not_running s inputs hs).1 h

/-! ## Termination triggers -/

/-- C6: at every tick of a running session, if some termination trigger holds
then the trigger that fires is one that holds and no trigger before it in the
order maximum duration, zero agents, external abort, game concluded holds; the
session ends with the result of that trigger (TimedOut, AgentFailure,
Aborted("external signal"), CompletedNormally respectively), whatever is
presented afterwards. When no trigger holds none fires. Along a session at
most one trigger fires, and exactly one once the session has left Running. -/
theorem triggers_by_precedence (s : Session) (pre : List TickInput) (i : TickInput)
    (post : List TickInput) (hpre : (run s pre).phase = .Running) :
    (∀ t : Trigger,
      t.holds (collectFrom (run s pre).tick i.responded 0 (run s pre).agents) i = true →
      ∃ t0, (step (run s pre) i).fired = some t0 ∧
        t0.holds (collectFrom (run s pre).tick i.responded 0 (run s pre).agents) i = true ∧
        t0.rank ≤ t.rank ∧
        (run s (pre ++ i :: post)).result
          = some (t0.result (collectFrom (run s pre).tick i.responded 0 (run s pre).agents))) ∧
    ((∀ t : Trigger,
        t.holds (collectFrom (run s pre).tick i.responded 0 (run s pre).agents) i = false) →
      (step (run s pre) i).fired = none) ∧
    (∀ agents, Trigger.maxDuration.result agents = .TimedOut ∧
      (∃ k, Trigger.noAgents.result agents = .AgentFailure k "no agent connected") ∧
      Trigger.externalAbort.result agents = .Aborted "external signal" ∧
      Trigger.concluded.result agents = .CompletedNormally) ∧
    (firedAlong s (pre ++ i :: post)).length ≤ 1 ∧
    ((run s (pre ++ i :: post)).phase ≠ .Running →
      (firedAlong s (pre ++ i :: post)).length = 1) := by
  refine ⟨?_, ?_, ?_, firedAlong_length_le s _, ?_⟩
  · intro t ht
    obtain ⟨t0, h0, h1, h2⟩ := evaluate_least _ i t ht
    have hf : (step (run s pre) i).fired = some t0 := by
      rw [step_fired, if_pos hpre]; exact h0
    refine ⟨t0, hf, h1, h2, ?_⟩
    obtain ⟨hd, hr⟩ := step_running_some (run s pre) i t0 hpre hf
    have hn : (step (run s pre) i).next.phase ≠ .Running := by rw [hd]; decide
    rw [run_append]
    simp only [run]
    rw [(run_not_running _ post hn).2.1, hr]
  · intro hnone
    rw [step_fired, if_pos hpre]
    exact evaluate_none _ i hnone
  · intro agents
    exact ⟨rfl, ⟨_, rfl⟩, rfl, rfl⟩
  · intro hend
    exact firedAlong_length_eq s _ (running_of_run_running s pre hpre) hend

/-- Witness of C6: two agents, a quiet tick, then a tick at which the maximum
duration has elapsed while an abort is signalled and the game has concluded. -/
theorem triggers_by_precedence_witness :
    (∀ t : Trigger,
      t.holds (collectFrom (run (Session.start 2 none) [tickQuiet]).tick
          tickAll.responded 0 (run (Session.start 2 none) [tickQuiet]).agents)
        tickAll = true →
      ∃ t0, (step (run (Session.start 2 none) [tickQuiet])
          tickAll).fired = some t0 ∧
        t0.holds (collectFrom (run (Session.start 2 none) [tickQuiet]).tick
          tickAll.responded 0 (run (Session.start 2 none) [tickQuiet]).agents)
          tickAll = true ∧
        t0.rank ≤ t.rank ∧
        (run (Session.start 2 none)
            ([tickQuiet] ++ tickAll :: [])).result
          = some (t0.result
              (collectFrom (run (Session.start 2 none) [tickQuiet]).tick
                tickAll.responded 0 (run (Session.start 2 none) [tickQuiet]).agents))) ∧
    ((∀ t : Trigger,
        t.holds (collectFrom (run (Session.start 2 none) [tickQuiet]).tick
          tickAll.responded 0 (run (Session.start 2 none) [tickQuiet]).agents)
          tickAll = false) →
      (step (run (Session.start 2 none) [tickQuiet])
        tickAll).fired = none) ∧
    (∀ agents, Trigger.maxDuration.result agents = .TimedOut ∧
      (∃ k, Trigger.noAgents.result agents = .AgentFailure k "no agent connected") ∧
      Trigger.externalAbort.result agents = .Aborted "external signal" ∧
      Trigger.concluded.result agents = .CompletedNormally) ∧
    (firedAlong (Session.start 2 none)
      ([tickQuiet] ++ tickAll :: [])).length ≤ 1 ∧
    ((run (Session.start 2 none)
        ([tickQuiet] ++ tickAll :: [])).phase ≠ .Running →
      (firedAlong (Session.start 2 none)
        ([tickQuiet] ++ tickAll :: [])).length = 1) :=
  triggers_by_precedence (Session.start 2 none) [tickQuiet]
    tickAll [] (by decide)

/-! ## Agents that stop answering -/

theorem collect_not_connected (tick : Nat) (a : Bool) (h : AgentHandle)
    (hc : h.connected = false) : h.collect tick a = h := by
  simp [AgentHandle.collect, hc]

theorem failed_not_connected (h : AgentHandle) (hf : h.state = .Failed) :
    h.connected = false := by
  simp [AgentHandle.connected, hf]

theorem collect_miss (tick n : Nat) (h : AgentHandle)
    (hp : h.state = .Failed ∨ (h.connected = true ∧ n ≤ h.missed)) :
    (h.collect tick false).state = .Failed ∨
      ((h.collect tick false).connected = true ∧ n + 1 ≤ (h.collect tick false).missed ∧
        (h.collect tick false).missed < missLimit) := by
  rcases hp with hf | ⟨hc, hn⟩
  · left
    rw [collect_not_connected tick false h (failed_not_connected h hf)]
    exact hf
  · by_cases hl : missLimit ≤ h.missed + 1
    · left
      simp [AgentHandle.collect, hc, hl]
    · right
      simp only [AgentHandle.collect, hc, if_true, hl, if_false, Bool.false_eq_true]
      refine ⟨?_, by omega, by omega⟩
      simpa [AgentHandle.connected] using hc

theorem collectFrom_getElem (tick : Nat) (responded : List Nat) (k : Nat)
    (hs : List AgentHandle) (j : Nat) :
    (collectFrom tick responded k hs)[j]?
      = (hs[j]?).map (fun h => h.collect tick (responded.contains (k + j))) := by
  induction hs generalizing k j with
  | nil => simp [collectFrom]
  | cons h hs ih =>
    cases j with
    | zero => simp [collectFrom]
    | succ j =>
      simp only [collectFrom, List.getElem?_cons_succ]
      rw [ih (k + 1) j]
      have : k + 1 + j = k + (j + 1) := by omega
      rw [this]

theorem askedFrom_ge (responded : List Nat) (k : Nat) (hs : List AgentHandle) (x : Nat)
    (b : Bool) (hm : (x, b) ∈ askedFrom responded k hs) : k ≤ x := by
  induction hs generalizing k with
  | nil => simp [askedFrom] at hm
  | cons h hs ih =>
    simp only [askedFrom] at hm
    by_cases hc : h.connected = true
    · rw [if_pos hc] at hm
      rcases List.mem_cons.mp hm with he | hm2
      · have : x = k := by simpa using congrArg Prod.fst he
        omega
      · have := ih (k + 1) hm2
        omega
    · rw [if_neg hc] at hm
      have := ih (k + 1) hm
      omega

theorem askedFrom_not_mem (responded : List Nat) (k : Nat) (hs : List AgentHandle) (j : Nat)
    (h : AgentHandle) (hj : hs[j]? = some h) (hc : h.connected = false) (b : Bool) :
    (k + j, b) ∉ askedFrom responded k hs := by
  induction hs generalizing k j with
  | nil => simp at hj
  | cons h0 hs ih =>
    cases j with
    | zero =>
      simp only [List.getElem?_cons_zero, Option.some.injEq] at hj
      subst hj
      simp only [askedFrom, hc, Bool.false_eq_true, if_false, Nat.add_zero]
      intro hm
      have := askedFrom_ge responded (k + 1) hs k b hm
      omega
    | succ j =>
      simp only [List.getElem?_cons_succ] at hj
      have hne := ih (k + 1) j hj
      have he : k + 1 + j = k + (j + 1) := by omega
      rw [he] at hne
      simp only [askedFrom]
      by_cases hc0 : h0.connected = true
      · rw [if_pos hc0]
        intro hm
        rcases List.mem_cons.mp hm with e | hm2
        · have : k + (j + 1) = k := by simpa using congrArg Prod.fst e
          omega
        · exact hne hm2
      · rw [if_neg hc0]
        exact hne

theorem step_keeps_failed (s : Session) (i : TickInput) (k : Nat) (h : AgentHandle)
    (hk : s.agents[k]? = some h) (hf : h.state = .Failed) :
    (step s i).next.agents[k]? = some h := by
  rw [step_agents]
  by_cases hs : s.phase = .Running
  · rw [if_pos hs, collectFrom_getElem, hk]
    simp [collect_not_connected _ _ h (failed_not_connected h hf)]
  · rw [if_neg hs]; exact hk

theorem run_keeps_failed (s : Session) (inputs : List TickInput) (k : Nat) (h : AgentHandle)
    (hk : s.agents[k]? = some h) (hf : h.state = .Failed) :
    (run s inputs).agents[k]? = some h := by
  induction inputs generalizing s with
  | nil => exact hk
  | cons i more ih => exact ih _ (step_keeps_failed s i k h hk hf)

theorem inputsAlong_skip_failed (s : Session) (inputs : List TickInput) (k : Nat)
    (h : AgentHandle) (hk : s.agents[k]? = some h) (hf : h.state = .Failed) :
    ∀ m ∈ inputsAlong s inputs, ∀ b, (k, b) ∉ m := by
  induction inputs generalizing s with
  | nil => intro m hm; simp [inputsAlong] at hm
  | cons i more ih =>
    intro m hm b
    simp only [inputsAlong, List.mem_cons] at hm
    rcases hm with rfl | hm
    · rw [step_inputs]
      by_cases hs : s.phase = .Running
      · rw [if_pos hs]
        have := askedFrom_not_mem i.responded 0 s.agents k h hk (failed_not_connected h hf) b
        simpa using this
      · rw [if_neg hs]; simp
    · exact ih _ (step_keeps_failed s i k h hk hf) m hm b

theorem step_miss (s : Session) (i : TickInput) (k n : Nat) (h : AgentHandle)
    (hs : s.phase = .Running) (hk : s.agents[k]? = some h) (hm : k ∉ i.responded)
    (hp : h.state = .Failed ∨ (h.connected = true ∧ n ≤ h.missed)) :
    ∃ h1, (step s i).next.agents[k]? = some h1 ∧
      (h1.state = .Failed ∨ (h1.connected = true ∧ n + 1 ≤ h1.missed ∧ h1.missed < missLimit)) := by
  refine ⟨h.collect s.tick false, ?_, collect_miss s.tick n h hp⟩
  rw [step_agents, if_pos hs, collectFrom_getElem, hk]
  simp [hm]

theorem step_draining (s : Session) (i : TickInput) (hs : s.phase = .Draining) :
    (step s i).next.phase = .Terminated ∧ (step s i).next.result = s.result := by
  unfold step
  simp [hs]

theorem step_terminated (s : Session) (i : TickInput) (hs : s.phase = .Terminated) :
    (step s i).next = s := by
  unfold step
  simp [hs]

theorem run_terminated (s : Session) (inputs : List TickInput) (hs : s.phase = .Terminated) :
    run s inputs = s := by
  induction inputs with
  | nil => rfl
  | cons i more ih => simp only [run, step_terminated s i hs, ih]

theorem all_not_connected (agents : List AgentHandle) (k : Nat) (hk : AgentHandle)
    (h1 : agents[k]? = some hk) (h2 : hk.state = .Failed)
    (h3 : ∀ j hj, j ≠ k → agents[j]? = some hj → hj.connected = false) :
    agents.all (fun h => !h.connected) = true := by
  rw [List.all_eq_true]
  intro x hx
  obtain ⟨j, hj⟩ := List.mem_iff_getElem?.mp hx
  by_cases hjk : j = k
  · subst hjk
    rw [h1] at hj
    simp only [Option.some.injEq] at hj
    subst hj
    simp [failed_not_connected _ h2]
  · simp [h3 j x hjk hj]

theorem askedFrom_mem (responded : List Nat) (k : Nat) (hs : List AgentHandle) (x : Nat)
    (b : Bool) (hm : (x, b) ∈ askedFrom responded k hs) :
    k ≤ x ∧ b = responded.contains x ∧ ∃ h, hs[x - k]? = some h ∧ h.connected = true := by
  induction hs generalizing k with
  | nil => simp [askedFrom] at hm
  | cons h0 hs ih =>
    simp only [askedFrom] at hm
    have tail : (x, b) ∈ askedFrom responded (k + 1) hs →
        k ≤ x ∧ b = responded.contains x ∧
          ∃ h, (h0 :: hs)[x - k]? = some h ∧ h.connected = true := by
      intro hm2
      obtain ⟨hle, hb, h, hx, hcx⟩ := ih (k + 1) hm2
      refine ⟨by omega, hb, h, ?_, hcx⟩
      have e : x - k = (x - (k + 1)) + 1 := by omega
      rw [e, List.getElem?_cons_succ]
      exact hx
    by_cases hc : h0.connected = true
    · rw [if_pos hc] at hm
      rcases List.mem_cons.mp hm with he | hm2
      · have e1 : x = k := congrArg Prod.fst he
        have e2 : b = responded.contains k := congrArg Prod.snd he
        subst e1
        exact ⟨Nat.le_refl _, e2, h0, by simp, hc⟩
      · exact tail hm2
    · rw [if_neg hc] at hm
      exact tail hm

theorem missesTick_spec (s : Session) (i : TickInput) (k : Nat)
    (hm : missesTick s i k = true) :
    s.phase = .Running ∧ i.durationElapsed = false ∧ k ∉ i.responded ∧
      ∃ h, s.agents[k]? = some h ∧ h.connected = true := by
  simp only [missesTick, Bool.and_eq_true, Bool.not_eq_true'] at hm
  obtain ⟨he, hin0⟩ := hm
  have hin : (k, false) ∈ (step s i).inputs := by simpa using hin0
  rw [step_inputs] at hin
  by_cases hs : s.phase = .Running
  · rw [if_pos hs] at hin
    obtain ⟨-, hb, h, hx, hc⟩ := askedFrom_mem i.responded 0 s.agents k false hin
    refine ⟨hs, he, ?_, h, by simpa using hx, hc⟩
    intro hmem
    have : i.responded.contains k = true := by simpa using hmem
    rw [this] at hb
    cases hb
  · rw [if_neg hs] at hin
    simp at hin

/-- C7: an agent that misses three consecutive ticks of a session has its
handle Failed after the third; from then on, whatever is presented, the handle
stays Failed (it is never re-added) and the agent is in no input collection.
If no other agent is connected after that third tick, the session ends at it
with AgentFailure: it is Draining with that result, and Terminated with the
same result after any further step. -/
theorem three_misses_fail (s : Session) (k : Nat) (i1 i2 i3 : TickInput)
    (m1 : missesTick s i1 k = true) (m2 : missesTick (step s i1).next i2 k = true)
    (m3 : missesTick (step (step s i1).next i2).next i3 k = true) :
    (∃ h3, (run s [i1, i2, i3]).agents[k]? = some h3 ∧ h3.state = .Failed) ∧
    (∀ more : List TickInput,
      (∃ hm, (run (run s [i1, i2, i3]) more).agents[k]? = some hm ∧ hm.state = .Failed) ∧
      ∀ m ∈ inputsAlong (run s [i1, i2, i3]) more, ∀ b, (k, b) ∉ m) ∧
    ((∀ j hj, j ≠ k → (run s [i1, i2, i3]).agents[j]? = some hj → hj.connected = false) →
      (run s [i1, i2, i3]).phase = .Draining ∧
      (step (run s [i1, i2]) i3).fired = some Trigger.noAgents ∧
      (∃ idx, (run s [i1, i2, i3]).result
        = some (SessionResult.AgentFailure idx "no agent connected")) ∧
      ∀ i more, (run (run s [i1, i2, i3]) (i :: more)).phase = .Terminated ∧
        (run (run s [i1, i2, i3]) (i :: more)).result = (run s [i1, i2, i3]).result) := by
  obtain ⟨hs, -, n1, h, hk, hc⟩ := missesTick_spec s i1 k m1
  obtain ⟨hs1, -, n2, -⟩ := missesTick_spec _ i2 k m2
  obtain ⟨hs2, e3, n3, -⟩ := missesTick_spec _ i3 k m3
  obtain ⟨h1, hk1, hp1⟩ := step_miss s i1 k 0 h hs hk n1 (Or.inr ⟨hc, Nat.zero_le _⟩)
  have hp1w : h1.state = .Failed ∨ (h1.connected = true ∧ 1 ≤ h1.missed) :=
    hp1.imp id (fun x => ⟨x.1, x.2.1⟩)
  obtain ⟨h2, hk2, hp2⟩ := step_miss _ i2 k 1 h1 hs1 hk1 n2 hp1w
  have hp2w : h2.state = .Failed ∨ (h2.connected = true ∧ 2 ≤ h2.missed) :=
    hp2.imp id (fun x => ⟨x.1, x.2.1⟩)
  obtain ⟨h3, hk3, hp3⟩ := step_miss _ i3 k 2 h2 hs2 hk2 n3 hp2w
  have hf3 : h3.state = .Failed := by
    rcases hp3 with hf | ⟨-, ha, hb⟩
    · exact hf
    · simp only [missLimit] at hb
      omega
  have hrun : run s [i1, i2, i3] = (step (step (step s i1).next i2).next i3).next := rfl
  have hrun2 : run s [i1, i2] = (step (step s i1).next i2).next := rfl
  rw [hrun, hrun2]
  refine ⟨⟨h3, hk3, hf3⟩, fun more => ⟨⟨h3, run_keeps_failed _ more k h3 hk3 hf3, hf3⟩,
    inputsAlong_skip_failed _ more k h3 hk3 hf3⟩, fun hlast => ?_⟩
  have hall := all_not_connected _ k h3 hk3 hf3 hlast
  rw [step_agents, if_pos hs2] at hall
  have hev : (step (step (step s i1).next i2).next i3).fired = some Trigger.noAgents := by
    rw [step_fired, if_pos hs2]
    unfold evaluate
    rw [hall, e3]
    simp
  obtain ⟨hd, hr⟩ := step_running_some _ i3 _ hs2 hev
  refine ⟨hd, hev, ⟨_, hr⟩, fun i more => ?_⟩
  obtain ⟨ht, hres⟩ := step_draining _ i hd
  simp only [run]
  rw [run_terminated _ more ht]
  exact ⟨ht, hres⟩

/-- Witness of C7: a single agent that never answers. -/
theorem three_misses_fail_witness :
    (∃ h3, (run (Session.start 1 none) [tickSilent, tickSilent, tickSilent]).agents[0]?
        = some h3 ∧ h3.state = .Failed) ∧
    (∀ more : List TickInput,
      (∃ hm, (run (run (Session.start 1 none) [tickSilent, tickSilent, tickSilent])
          more).agents[0]? = some hm ∧ hm.state = .Failed) ∧
      ∀ m ∈ inputsAlong (run (Session.start 1 none) [tickSilent, tickSilent, tickSilent]) more,
        ∀ b, (0, b) ∉ m) ∧
    ((∀ j hj, j ≠ 0 →
        (run (Session.start 1 none) [tickSilent, tickSilent, tickSilent]).agents[j]? = some hj →
        hj.connected = false) →
      (run (Session.start 1 none) [tickSilent, tickSilent, tickSilent]).phase = .Draining ∧
      (step (run (Session.start 1 none) [tickSilent, tickSilent]) tickSilent).fired
        = some Trigger.noAgents ∧
      (∃ idx, (run (Session.start 1 none) [tickSilent, tickSilent, tickSilent]).result
        = some (SessionResult.AgentFailure idx "no agent connected")) ∧
      ∀ i more, (run (run (Session.start 1 none) [tickSilent, tickSilent, tickSilent])
          (i :: more)).phase = .Terminated ∧
        (run (run (Session.start 1 none) [tickSilent, tickSilent, tickSilent])
          (i :: more)).result
          = (run (Session.start 1 none) [tickSilent, tickSilent, tickSilent]).result) :=
  three_misses_fail (Session.start 1 none) 0 tickSilent tickSilent tickSilent
    (by decide) (by decide) (by decide)

end Orchestrator
